import Mathlib

/-!
Verification of the PnL chart core (`src/components/PnlChart.tsx`).

The shallow embedding models JS numbers as `ℚ`, JS strings as `String`,
and a recharts data row (a JS object `Record<string, number>`) as an
association list `List (String × ℚ)` together with `objSet`, which has
JS-assignment semantics: assigning to an existing key overwrites its
value in place, assigning to a fresh key appends it.  Reading a key is
`List.lookup`, which returns the first (hence current) binding.
-/

namespace PnlChart

/-- `HistoryEntry` from the source: `{ t: number; bots: { id: string; pnl: number }[] }`. -/
structure BotPoint where
  id : String
  pnl : ℚ
deriving DecidableEq, Repr

structure HistoryEntry where
  t : ℚ
  bots : List BotPoint
deriving DecidableEq, Repr

/-- `UIBot` from the source. -/
structure UIBot where
  botId : String
  strategy : String
  livePnl : ℚ
  realizedPnl : ℚ
deriving DecidableEq, Repr

/-- `ChartVariant` from the source: `"minimal" | "grid-glow" | "split-area" | "neon"`. -/
inductive ChartVariant where
  | minimal
  | gridGlow
  | splitArea
  | neon
deriving DecidableEq, Repr

/-- `mode: "live" | "realized"` from the source. -/
inductive DisplayMode where
  | live
  | realized
deriving DecidableEq, Repr

/-- A chart data row, i.e. the JS object `Record<string, number>` built by the
`data` memo.  Keys appear at most once; `objSet` maintains that. -/
abbrev Row := List (String × ℚ)

/-- JS object assignment `row[k] = v`: overwrite the existing binding for `k`
in place, or append a fresh binding. -/
def objSet (row : Row) (k : String) (v : ℚ) : Row :=
  match row with
  | [] => [(k, v)]
  | (k', v') :: rest => if k' = k then (k, v) :: rest else (k', v') :: objSet rest k v

/-- The body of the `data` memo for one entry:
`const row = { t: entry.t }; entry.bots.forEach((b) => { row[b.id] = b.pnl });`. -/
def projectRow (e : HistoryEntry) : Row :=
  e.bots.foldl (fun r b => objSet r b.id b.pnl) [("t", e.t)]

/-- The `data` memo of `PnlChart`: `history.map((entry) => ...)`. -/
def projectData (history : List HistoryEntry) : List Row :=
  history.map projectRow

/-- The value of the last `(id, pnl)` pair carrying `id` in a bot list, if any. -/
def lastPnl (l : List BotPoint) (id : String) : Option ℚ :=
  ((l.filter fun b => b.id = id).getLast?).map BotPoint.pnl

-- Basic facts about `objSet` / `List.lookup`.

theorem lookup_objSet_self (row : Row) (k : String) (v : ℚ) :
    List.lookup k (objSet row k v) = some v := by
  induction row with
  | nil => simp [objSet, List.lookup]
  | cons p rest ih =>
    obtain ⟨k', v'⟩ := p
    by_cases h : k' = k
    · simp [objSet, h, List.lookup]
    · simp [objSet, h, List.lookup, ih, beq_eq_decide, Ne.symm h]

theorem lookup_objSet_ne (row : Row) (k k' : String) (v : ℚ) (h : k ≠ k') :
    List.lookup k (objSet row k' v) = List.lookup k row := by
  induction row with
  | nil => simp [objSet, List.lookup, beq_eq_decide, h]
  | cons p rest ih =>
    obtain ⟨k₀, v₀⟩ := p
    by_cases h0 : k₀ = k'
    · subst h0
      simp [objSet, List.lookup, beq_eq_decide, h]
    · by_cases h1 : k = k₀
      · subst h1
        simp [objSet, h0, List.lookup]
      · simp [objSet, h0, List.lookup, ih, beq_eq_decide, h1]

/-- Master lemma for the projector fold: looking up `id` after replaying the
assignments of `l` on top of `acc` yields the last assigned value for `id`,
falling back to `acc` when `l` never assigns `id`. -/
theorem lookup_foldl_objSet (l : List BotPoint) (acc : Row) (id : String) :
    List.lookup id (l.foldl (fun r b => objSet r b.id b.pnl) acc) =
      match lastPnl l id with
      | some v => some v
      | none => List.lookup id acc := by
  induction l using List.reverseRecOn with
  | nil => simp [lastPnl]
  | append_singleton xs b ih =>
    rw [List.foldl_append]
    by_cases hb : b.id = id
    · subst hb
      simp only [List.foldl_cons, List.foldl_nil]
      rw [lookup_objSet_self]
      simp [lastPnl, List.filter_append, List.getLast?_append]
    · simp only [List.foldl_cons, List.foldl_nil]
      rw [lookup_objSet_ne _ _ _ _ (fun h => hb h.symm)]
      rw [ih]
      have hfil : List.filter (fun x => decide (x.id = id)) [b] = [] := by
        simp [List.filter, hb]
      simp [lastPnl, List.filter_append, hfil]

-- Constants from the source.

def LINE_COLORS : List String :=
  ["#58a6ff", "#f0883e", "#3fb950", "#d2a8ff", "#f778ba", "#79c0ff", "#ffd33d", "#a5d6ff"]

def GRID_COLOR : String := "#21262d"

def MIN_HEIGHT : ℚ := 200

def MAX_HEIGHT : ℚ := 800

-- Formatting helpers from the source.

/-- Scaled rounding behind `toFixed(2)`: the integer closest to `100 * q`,
ties picking the larger, as ECMAScript `Number.prototype.toFixed` specifies
(modelled at ℚ precision for the nonnegative finite inputs `formatUsd` feeds it). -/
def cents (q : ℚ) : ℕ := (⌊q * 100 + 1 / 2⌋).toNat

/-- `v.toFixed(2)` for a nonnegative number: integer part, a dot, and exactly
two decimal digit characters. -/
def toFixed2 (q : ℚ) : String :=
  Nat.repr (cents q / 100) ++ "." ++ Nat.repr (cents q / 10 % 10) ++ Nat.repr (cents q % 10)

/-- `formatUsd` from the source:
`v >= 0 ? "$" + v.toFixed(2) : "-$" + Math.abs(v).toFixed(2)`. -/
def formatUsd (v : ℚ) : String :=
  if 0 ≤ v then "$" ++ toFixed2 v else "-$" ++ toFixed2 |v|

/-- `pnlColor` from the source: green when `v >= 0`, red otherwise. -/
def pnlColor (v : ℚ) : String :=
  if 0 ≤ v then "#3fb950" else "#f85149"

-- Resize hook (`useVerticalResize`).

/-- The height the `onMove` handler commits for a drag that started at height
`startH` and has moved the pointer by `delta` pixels:
`Math.min(MAX_HEIGHT, Math.max(MIN_HEIGHT, startH.current + delta))`. -/
def resizeHeight (startH delta : ℚ) : ℚ :=
  min MAX_HEIGHT (max MIN_HEIGHT (startH + delta))

-- Legend (`ChartLegend`).

structure LegendRow where
  label : String
  value : ℚ
  color : String
  valueText : String
  valueColor : String
deriving DecidableEq, Repr

/-- One legend item, from `bots.map((b, i) => ...)` in `ChartLegend`:
the displayed value picks `livePnl` or `realizedPnl` by `mode`, the swatch
color is `colors[i % colors.length]`. -/
def legendRow (colors : List String) (mode : DisplayMode) (i : ℕ) (b : UIBot) : LegendRow :=
  let val := match mode with
    | DisplayMode.live => b.livePnl
    | DisplayMode.realized => b.realizedPnl
  { label := b.strategy
    value := val
    color := colors.getD (i % colors.length) ""
    valueText := formatUsd val
    valueColor := pnlColor val }

def legendRows (bots : List UIBot) (mode : DisplayMode) (colors : List String) : List LegendRow :=
  bots.enum.map fun p => legendRow colors mode p.1 p.2

-- Tooltip (`ChartTooltipContent`).

/-- One element of the recharts tooltip `payload`: `dataKey` is the series
key (a bot id), `value` the y-value at the hovered point, `stroke` the series
color. -/
structure PayloadItem where
  dataKey : String
  value : ℚ
  stroke : String
deriving DecidableEq, Repr

structure TooltipItem where
  name : String
  value : ℚ
  color : String
deriving DecidableEq, Repr

/-- The `.map` step of `ChartTooltipContent`:
`{ name: bots.find((b) => b.botId === p.dataKey)?.strategy ?? p.dataKey, value: p.value, color: p.stroke }`. -/
def toTooltipItem (bots : List UIBot) (p : PayloadItem) : TooltipItem :=
  { name := ((bots.find? fun b => b.botId == p.dataKey).map UIBot.strategy).getD p.dataKey
    value := p.value
    color := p.stroke }

/-- Stable insertion step for `.sort((a, b) => b.value - a.value)`: `x` goes in
front of the first element whose value is `≤ val x`; before equal values `x`
keeps its (earlier) original position, matching the stability ECMAScript
guarantees for `Array.prototype.sort`. -/
def insertDesc {α : Type} (val : α → ℚ) (x : α) : List α → List α
  | [] => [x]
  | y :: ys => if val y ≤ val x then x :: y :: ys else y :: insertDesc val x ys

/-- Stable sort by `val` descending, the semantics of
`.sort((a, b) => b.value - a.value)` on an array of numbers. -/
def sortDesc {α : Type} (val : α → ℚ) : List α → List α
  | [] => []
  | x :: xs => insertDesc val x (sortDesc val xs)

/-- The row list `ChartTooltipContent` renders for an active tooltip. -/
def tooltipItems (payload : List PayloadItem) (bots : List UIBot) : List TooltipItem :=
  sortDesc TooltipItem.value (payload.map (toTooltipItem bots))

/-- The rendered tooltip: the hovered timestamp (`label`, whose `formatTime`
display is visual only) and the sorted rows. -/
structure TooltipBox where
  label : ℚ
  items : List TooltipItem
deriving DecidableEq, Repr

/-- `ChartTooltipContent`: `if (!active || !payload?.length) return null`,
otherwise render the mapped and sorted rows. -/
def chartTooltipContent (active : Bool) (payload : List PayloadItem) (label : ℚ)
    (bots : List UIBot) : Option TooltipBox :=
  if !active || payload.isEmpty then none
  else some { label := label, items := tooltipItems payload bots }

-- Variant renderer.

inductive ChartKind where
  | line
  | area
deriving DecidableEq, Repr

inductive StrokeStyle where
  | dashed
  | solid
deriving DecidableEq, Repr

/-- A `CartesianGrid` element: dashed or solid lines, whether vertical lines
are drawn (`vertical={false}` in all variants that show a grid), and color. -/
structure GridSpec where
  style : StrokeStyle
  vertical : Bool
  color : String
deriving DecidableEq, Repr

/-- The per-variant visual encoding the component emits. -/
structure RenderConfig where
  kind : ChartKind
  grid : Option GridSpec
  strokeWidth : ℚ
  perSeriesGradientFill : Bool
  glow : Bool
deriving DecidableEq, Repr

/-- The variant dispatch of `PnlChart`: the `split-area` early return builds an
`AreaChart` with dashed horizontal grid, stroke 1.5 and per-series gradient
fills; the main return builds a `LineChart` with
`isNeon = variant === "neon"`, `showGrid = variant === "grid-glow" || variant === "neon"`,
`strokeW = isNeon ? 2.5 : 1.5`, a solid faint grid for neon and a dashed
`GRID_COLOR` grid for grid-glow, and the `neonGlow` filter on each stroke
when neon. -/
def renderConfig (variant : ChartVariant) : RenderConfig :=
  if variant = ChartVariant.splitArea then
    { kind := ChartKind.area
      grid := some { style := StrokeStyle.dashed, vertical := false, color := GRID_COLOR }
      strokeWidth := 3 / 2
      perSeriesGradientFill := true
      glow := false }
  else
    let isNeon := variant = ChartVariant.neon
    let showGrid := variant = ChartVariant.gridGlow ∨ variant = ChartVariant.neon
    { kind := ChartKind.line
      grid :=
        if showGrid then
          some { style := if isNeon then StrokeStyle.solid else StrokeStyle.dashed
                 vertical := false
                 color := if isNeon then "#1a2233" else GRID_COLOR }
        else none
      strokeWidth := if isNeon then 5 / 2 else 3 / 2
      perSeriesGradientFill := false
      glow := if isNeon then true else false }

/-- Everything a render of `PnlChart` derives from its props: the projected
series (`data`), the legend rows, and the variant's visual encoding. -/
structure ChartOutput where
  series : List Row
  legend : List LegendRow
  config : RenderConfig
deriving DecidableEq, Repr

def pnlChart (history : List HistoryEntry) (bots : List UIBot) (mode : DisplayMode)
    (variant : ChartVariant) : ChartOutput :=
  { series := projectData history
    legend := legendRows bots mode LINE_COLORS
    config := renderConfig variant }

-- Supporting lemmas about the projector.

theorem lastPnl_eq_none (l : List BotPoint) (id : String) (h : ∀ b ∈ l, b.id ≠ id) :
    lastPnl l id = none := by
  have hf : (List.filter (fun b => decide (b.id = id)) l) = [] :=
    List.filter_eq_nil_iff.mpr (fun a ha => by simpa using h a ha)
  simp [lastPnl, hf]

theorem filter_id_single (l : List BotPoint) (hnd : (l.map BotPoint.id).Nodup)
    (b : BotPoint) (hb : b ∈ l) :
    List.filter (fun x => decide (x.id = b.id)) l = [b] := by
  induction l with
  | nil => cases hb
  | cons a tl ih =>
    rw [List.map_cons, List.nodup_cons] at hnd
    rcases List.mem_cons.mp hb with rfl | hmem
    · have htl : List.filter (fun x => decide (x.id = b.id)) tl = [] :=
        List.filter_eq_nil_iff.mpr (by
          intro x hx hxe
          exact hnd.1 (by
            have : x.id = b.id := by simpa using hxe
            exact this ▸ List.mem_map_of_mem BotPoint.id hx))
      simp [List.filter_cons, htl]
    · have hne : a.id ≠ b.id := by
        intro he
        exact hnd.1 (he ▸ List.mem_map_of_mem BotPoint.id hmem)
      simp [List.filter_cons, hne, ih hnd.2 hmem]

theorem lookup_projectRow_t (e : HistoryEntry) (h : ∀ b ∈ e.bots, b.id ≠ "t") :
    List.lookup "t" (projectRow e) = some e.t := by
  unfold projectRow
  rw [lookup_foldl_objSet, lastPnl_eq_none e.bots "t" h]
  rfl

theorem lookup_projectRow_mem (e : HistoryEntry) (hnd : (e.bots.map BotPoint.id).Nodup)
    (b : BotPoint) (hb : b ∈ e.bots) :
    List.lookup b.id (projectRow e) = some b.pnl := by
  unfold projectRow
  rw [lookup_foldl_objSet]
  have hl : lastPnl e.bots b.id = some b.pnl := by
    unfold lastPnl
    rw [filter_id_single e.bots hnd b hb]
    rfl
  rw [hl]

-- C1.

/-- C1 fails as stated: in the entry `{t: 5, bots: [(t,7), (a,1), (a,2)]}` the
row's `t` column is 7, not the entry's timestamp 5 (an entity id `"t"`
overwrites the timestamp key), and the pair `(a,1)`, though present in the
entry, is not mapped to 1 (the later pair `(a,2)` overwrites it). -/
theorem projection_rows_cex :
    ((⟨"a", 1⟩ : BotPoint) ∈ (⟨5, [⟨"t", 7⟩, ⟨"a", 1⟩, ⟨"a", 2⟩]⟩ : HistoryEntry).bots ∧
      List.lookup "a" (projectRow ⟨5, [⟨"t", 7⟩, ⟨"a", 1⟩, ⟨"a", 2⟩]⟩) ≠ some 1) ∧
    List.lookup "t" (projectRow ⟨5, [⟨"t", 7⟩, ⟨"a", 1⟩, ⟨"a", 2⟩]⟩) ≠ some 5 := by
  decide

/-- C1 (amended): for every history H in which each entry's entity ids are
pairwise distinct and none equals the reserved timestamp key `"t"`, the `data`
mapping produces exactly `|H|` rows in the order of H; the i-th row carries the
i-th entry's timestamp unchanged under the `t` column, and maps each
`(entityId, value)` pair of that entry to that value. -/
theorem projection_rows (H : List HistoryEntry)
    (hvalid : ∀ e ∈ H, (e.bots.map BotPoint.id).Nodup ∧ ∀ b ∈ e.bots, b.id ≠ "t") :
    (projectData H).length = H.length ∧
    ∀ (i : ℕ) (e : HistoryEntry), H[i]? = some e →
      (projectData H)[i]? = some (projectRow e) ∧
      List.lookup "t" (projectRow e) = some e.t ∧
      ∀ b ∈ e.bots, List.lookup b.id (projectRow e) = some b.pnl := by
  refine ⟨by simp [projectData], ?_⟩
  intro i e he
  have hmem : e ∈ H := List.getElem?_mem he
  obtain ⟨hnd, ht⟩ := hvalid e hmem
  exact ⟨by simp [projectData, he],
    lookup_projectRow_t e ht,
    fun b hb => lookup_projectRow_mem e hnd b hb⟩

/-- Witness for C1 on the spec's own scenario history. -/
theorem projection_rows_witness :
    (projectData [⟨1000, [⟨"A", 10⟩, ⟨"B", -5⟩]⟩, ⟨2000, [⟨"A", 12⟩]⟩]).length = 2 ∧
    List.lookup "t" (projectRow ⟨2000, [⟨"A", 12⟩]⟩) = some 2000 := by
  have h := projection_rows [⟨1000, [⟨"A", 10⟩, ⟨"B", -5⟩]⟩, ⟨2000, [⟨"A", 12⟩]⟩]
    (by decide)
  exact ⟨h.1, (h.2 1 ⟨2000, [⟨"A", 12⟩]⟩ rfl).2.1⟩

-- C2.

/-- C2 fails as stated for the reserved key `"t"`: in the entry
`{t: 5, bots: [(a,1)]}` no pair carries the id `"t"`, yet the projected row has
a binding for the column `"t"` (the timestamp). -/
theorem projector_missing_unset_cex :
    (∀ b ∈ (⟨5, [⟨"a", 1⟩]⟩ : HistoryEntry).bots, b.id ≠ "t") ∧
    List.lookup "t" (projectRow ⟨5, [⟨"a", 1⟩]⟩) = some 5 := by
  decide

/-- C2 (amended): for every history entry and every entity id other than the
reserved timestamp key `"t"` that does not occur among the entry's pairs, the
projected row has no binding for that id at all. -/
theorem projector_missing_unset (e : HistoryEntry) (id : String) (hid : id ≠ "t")
    (habs : ∀ b ∈ e.bots, b.id ≠ id) :
    List.lookup id (projectRow e) = none := by
  unfold projectRow
  rw [lookup_foldl_objSet, lastPnl_eq_none e.bots id habs]
  simp [List.lookup, beq_eq_decide, hid]

/-- Witness for C2 on the spec's scenario: `B` is unset in the second row. -/
theorem projector_missing_unset_witness :
    List.lookup "B" (projectRow ⟨2000, [⟨"A", 12⟩]⟩) = none :=
  projector_missing_unset ⟨2000, [⟨"A", 12⟩]⟩ "B" (by decide) (by decide)

-- C10.

/-- C10: whenever an entity id occurs among an entry's pairs — in particular
when it occurs more than once — the projected row maps that id to the value of
the last pair carrying it (later assignments overwrite earlier ones), and the
projection is total. -/
theorem projector_duplicate_last_wins (e : HistoryEntry) (id : String) (v : ℚ)
    (h : lastPnl e.bots id = some v) :
    List.lookup id (projectRow e) = some v := by
  unfold projectRow
  rw [lookup_foldl_objSet, h]

/-- Witness for C10: with duplicate pairs `(a,1), (a,2)` the column `a` holds 2. -/
theorem projector_duplicate_last_wins_witness :
    List.lookup "a" (projectRow ⟨1, [⟨"a", 1⟩, ⟨"a", 2⟩]⟩) = some 2 :=
  projector_duplicate_last_wins ⟨1, [⟨"a", 1⟩, ⟨"a", 2⟩]⟩ "a" 2 (by decide)

-- Supporting lemmas about the stable descending sort.

theorem length_insertDesc {α : Type} (val : α → ℚ) (x : α) (l : List α) :
    (insertDesc val x l).length = l.length + 1 := by
  induction l with
  | nil => rfl
  | cons y ys ih =>
    by_cases h : val y ≤ val x
    · simp [insertDesc, h]
    · simp [insertDesc, h, ih]

theorem length_sortDesc {α : Type} (val : α → ℚ) (l : List α) :
    (sortDesc val l).length = l.length := by
  induction l with
  | nil => rfl
  | cons x xs ih => simp [sortDesc, length_insertDesc, ih]

theorem mem_insertDesc {α : Type} (val : α → ℚ) (x z : α) (l : List α) :
    z ∈ insertDesc val x l ↔ z = x ∨ z ∈ l := by
  induction l with
  | nil => simp [insertDesc]
  | cons y ys ih =>
    by_cases h : val y ≤ val x
    · simp [insertDesc, h]
    · simp only [insertDesc, h, if_false, List.mem_cons, ih]
      tauto

theorem mem_sortDesc {α : Type} (val : α → ℚ) (z : α) (l : List α) :
    z ∈ sortDesc val l ↔ z ∈ l := by
  induction l with
  | nil => simp [sortDesc]
  | cons x xs ih => simp [sortDesc, mem_insertDesc, ih]

theorem map_insertDesc {α β : Type} (g : β → α) (val : α → ℚ) (x : β) (l : List β) :
    (insertDesc (fun b => val (g b)) x l).map g = insertDesc val (g x) (l.map g) := by
  induction l with
  | nil => rfl
  | cons y ys ih =>
    by_cases h : val (g y) ≤ val (g x)
    · simp [insertDesc, h]
    · simp [insertDesc, h, ih]

theorem map_sortDesc {α β : Type} (g : β → α) (val : α → ℚ) (l : List β) :
    (sortDesc (fun b => val (g b)) l).map g = sortDesc val (l.map g) := by
  induction l with
  | nil => rfl
  | cons x xs ih => simp [sortDesc, map_insertDesc, ih]

/-- The order required of a stable descending sort on index-tagged elements:
an earlier output element either has strictly larger value, or equal value and
a smaller original position. -/
def StableRel {α : Type} (val : α → ℚ) (idx : α → ℕ) (a b : α) : Prop :=
  val b < val a ∨ (val a = val b ∧ idx a < idx b)

theorem pairwise_insertDesc {α : Type} (val : α → ℚ) (idx : α → ℕ) (x : α) (l : List α)
    (hl : l.Pairwise (StableRel val idx)) (hx : ∀ y ∈ l, idx x < idx y) :
    (insertDesc val x l).Pairwise (StableRel val idx) := by
  induction l with
  | nil => simp [insertDesc, StableRel]
  | cons y ys ih =>
    rw [List.pairwise_cons] at hl
    obtain ⟨hy, hys⟩ := hl
    by_cases h : val y ≤ val x
    · simp only [insertDesc, h, if_true]
      refine List.Pairwise.cons ?_ (List.Pairwise.cons hy hys)
      intro z hz
      rcases List.mem_cons.mp hz with rfl | hzys
      · rcases lt_or_eq_of_le h with hlt | heq
        · exact Or.inl hlt
        · exact Or.inr ⟨heq.symm, hx z (by simp)⟩
      · rcases hy z hzys with hlt | ⟨heq, _⟩
        · exact Or.inl (lt_of_lt_of_le hlt h)
        · rcases lt_or_eq_of_le (heq ▸ h) with hlt | heq2
          · exact Or.inl hlt
          · exact Or.inr ⟨heq2.symm, hx z (by simp [hzys])⟩
    · simp only [insertDesc, h, if_false]
      refine List.Pairwise.cons ?_ (ih hys (fun y' hy' => hx y' (by simp [hy'])))
      intro z hz
      rcases (mem_insertDesc val x z ys).mp hz with rfl | hzys
      · exact Or.inl (lt_of_not_le h)
      · exact hy z hzys

theorem pairwise_sortDesc {α : Type} (val : α → ℚ) (idx : α → ℕ) (l : List α)
    (hidx : l.Pairwise fun a b => idx a < idx b) :
    (sortDesc val l).Pairwise (StableRel val idx) := by
  induction l with
  | nil => simp [sortDesc]
  | cons x xs ih =>
    rw [List.pairwise_cons] at hidx
    refine pairwise_insertDesc val idx x _ (ih hidx.2) ?_
    intro y hy
    exact hidx.1 y ((mem_sortDesc val y xs).mp hy)

theorem le_fst_of_mem_enumFrom {α : Type} :
    ∀ (n : ℕ) (l : List α) (p : ℕ × α), p ∈ List.enumFrom n l → n ≤ p.1 := by
  intro n l
  induction l generalizing n with
  | nil => intro p h; cases h
  | cons x xs ih =>
    intro p h
    rcases List.mem_cons.mp h with rfl | h'
    · exact le_refl n
    · exact Nat.le_of_succ_le (ih (n + 1) p h')

theorem pairwise_fst_lt_enumFrom {α : Type} :
    ∀ (n : ℕ) (l : List α), (List.enumFrom n l).Pairwise fun a b => a.1 < b.1 := by
  intro n l
  induction l generalizing n with
  | nil => exact List.Pairwise.nil
  | cons x xs ih =>
    refine List.Pairwise.cons ?_ (ih (n + 1))
    intro p hp
    exact lt_of_lt_of_le (Nat.lt_succ_self n) (le_fst_of_mem_enumFrom (n + 1) xs p hp)

-- C3.

/-- C3: for an active tooltip whose payload has k entries, `ChartTooltipContent`
renders exactly k rows; the rows are sorted by value descending, and — via the
index-tagged sort they project from — two rows with equal values keep the
relative order their entries had in the payload (stability). -/
theorem tooltip_rows_sorted_stable (payload : List PayloadItem) (bots : List UIBot)
    (label : ℚ) (hne : payload ≠ []) :
    chartTooltipContent true payload label bots =
      some ⟨label, tooltipItems payload bots⟩ ∧
    (tooltipItems payload bots).length = payload.length ∧
    (tooltipItems payload bots).Pairwise (fun a b => b.value ≤ a.value) ∧
    tooltipItems payload bots =
      (sortDesc (fun p => p.2.value) ((payload.map (toTooltipItem bots)).enum)).map Prod.snd ∧
    (sortDesc (fun p => p.2.value) ((payload.map (toTooltipItem bots)).enum)).Pairwise
      (StableRel (fun p => p.2.value) Prod.fst) := by
  have heq : tooltipItems payload bots =
      (sortDesc (fun p => p.2.value) ((payload.map (toTooltipItem bots)).enum)).map Prod.snd := by
    have h := map_sortDesc (β := ℕ × TooltipItem) Prod.snd TooltipItem.value
      ((payload.map (toTooltipItem bots)).enum)
    rw [List.enum_map_snd] at h
    unfold tooltipItems
    exact h.symm
  have hstable :
      (sortDesc (fun p => p.2.value) ((payload.map (toTooltipItem bots)).enum)).Pairwise
        (StableRel (fun p => p.2.value) Prod.fst) := by
    refine pairwise_sortDesc _ Prod.fst _ ?_
    exact pairwise_fst_lt_enumFrom 0 (payload.map (toTooltipItem bots))
  refine ⟨by simp [chartTooltipContent, hne], ?_, ?_, heq, hstable⟩
  · unfold tooltipItems
    rw [length_sortDesc, List.length_map]
  · rw [heq]
    refine hstable.map Prod.snd ?_
    intro a b hab
    rcases hab with h | ⟨h, _⟩
    · exact le_of_lt h
    · exact le_of_eq h.symm

/-- Witness for C3 on the spec's scenario payload at t = 1000. -/
theorem tooltip_rows_sorted_stable_witness :
    chartTooltipContent true [⟨"A", 10, "c1"⟩, ⟨"B", -5, "c2"⟩] 1000 [] =
      some ⟨1000, tooltipItems [⟨"A", 10, "c1"⟩, ⟨"B", -5, "c2"⟩] []⟩ ∧
    (tooltipItems [⟨"A", 10, "c1"⟩, ⟨"B", -5, "c2"⟩] []).length = 2 := by
  have h := tooltip_rows_sorted_stable [⟨"A", 10, "c1"⟩, ⟨"B", -5, "c2"⟩] [] 1000
    (by simp)
  exact ⟨h.1, by simpa using h.2.1⟩

-- C4.

/-- C4: from any committed height in `[MIN_HEIGHT, MAX_HEIGHT]`, a pointer-move
of any delta sets the height to `clamp(h0 + dy, 200, 800)`, so the height never
leaves `[200, 800]`; from 360, a drag of +50 yields 410 and a drag of +10000
clamps to 800. -/
theorem resize_clamped (h0 dy : ℚ) (hlo : MIN_HEIGHT ≤ h0) (hhi : h0 ≤ MAX_HEIGHT) :
    resizeHeight h0 dy = max 200 (min 800 (h0 + dy)) ∧
    (200 : ℚ) ≤ resizeHeight h0 dy ∧ resizeHeight h0 dy ≤ 800 ∧
    resizeHeight 360 50 = 410 ∧ resizeHeight 360 10000 = 800 := by
  refine ⟨?_, ?_, ?_,
    by norm_num [resizeHeight, MIN_HEIGHT, MAX_HEIGHT, min_def, max_def],
    by norm_num [resizeHeight, MIN_HEIGHT, MAX_HEIGHT, min_def, max_def]⟩
  · rw [resizeHeight, min_max_distrib_left]
    norm_num [MIN_HEIGHT, MAX_HEIGHT]
  · rw [resizeHeight]
    exact le_min (by norm_num [MAX_HEIGHT]) (le_trans (by norm_num [MIN_HEIGHT]) (le_max_left _ _))
  · rw [resizeHeight]
    exact le_trans (min_le_left _ _) (by norm_num [MAX_HEIGHT])

/-- Witness for C4: the spec's drag scenario from height 360. -/
theorem resize_clamped_witness :
    resizeHeight 360 50 = 410 ∧ resizeHeight 360 10000 = 800 := by
  have h := resize_clamped 360 50 (by norm_num [MIN_HEIGHT]) (by norm_num [MAX_HEIGHT])
  exact ⟨h.2.2.2.1, h.2.2.2.2⟩

-- C5.

/-- C5: with identical `(history, bots, mode)`, any two variant selectors give
the identical projected series (and legend); the variant only changes the
render configuration. -/
theorem variant_purity (history : List HistoryEntry) (bots : List UIBot)
    (mode : DisplayMode) (v1 v2 : ChartVariant) :
    (pnlChart history bots mode v1).series = (pnlChart history bots mode v2).series ∧
    (pnlChart history bots mode v1).legend = (pnlChart history bots mode v2).legend :=
  ⟨rfl, rfl⟩

-- C6.

/-- C6: the variant-to-encoding matrix. `minimal` is a plain line chart with
stroke 1.5; `grid-glow` adds a dashed horizontal-only grid; `split-area` is an
area chart with dashed horizontal-only grid and per-series gradient fills;
`neon` is a line chart with a solid faint horizontal-only grid, stroke 2.5 and
a glow filter on each stroke. -/
theorem variant_matrix :
    renderConfig ChartVariant.minimal =
      { kind := ChartKind.line, grid := none, strokeWidth := 3 / 2,
        perSeriesGradientFill := false, glow := false } ∧
    renderConfig ChartVariant.gridGlow =
      { kind := ChartKind.line,
        grid := some { style := StrokeStyle.dashed, vertical := false, color := GRID_COLOR },
        strokeWidth := 3 / 2, perSeriesGradientFill := false, glow := false } ∧
    renderConfig ChartVariant.splitArea =
      { kind := ChartKind.area,
        grid := some { style := StrokeStyle.dashed, vertical := false, color := GRID_COLOR },
        strokeWidth := 3 / 2, perSeriesGradientFill := true, glow := false } ∧
    renderConfig ChartVariant.neon =
      { kind := ChartKind.line,
        grid := some { style := StrokeStyle.solid, vertical := false, color := "#1a2233" },
        strokeWidth := 5 / 2, perSeriesGradientFill := false, glow := true } :=
  ⟨rfl, rfl, rfl, rfl⟩

-- C7.

/-- C7: the palette has exactly (hence at least) 8 colors; the i-th legend row
exists for the i-th bot, carries its strategy label, and its swatch color is
the palette entry at index `i mod 8`; the color depends only on the position
`i`, not on the bot's identity or the display mode. -/
theorem legend_color_assignment :
    LINE_COLORS.length = 8 ∧
    (∀ (bots : List UIBot) (mode : DisplayMode) (i : ℕ) (b : UIBot),
      bots[i]? = some b →
      (legendRows bots mode LINE_COLORS)[i]? = some (legendRow LINE_COLORS mode i b) ∧
      (legendRow LINE_COLORS mode i b).color = LINE_COLORS.getD (i % 8) "" ∧
      (legendRow LINE_COLORS mode i b).label = b.strategy) ∧
    (∀ (bots bots' : List UIBot) (mode mode' : DisplayMode) (i : ℕ) (b b' : UIBot),
      bots[i]? = some b → bots'[i]? = some b' →
      (legendRow LINE_COLORS mode i b).color = (legendRow LINE_COLORS mode' i b').color) := by
  refine ⟨rfl, ?_, ?_⟩
  · intro bots mode i b hb
    refine ⟨?_, rfl, rfl⟩
    simp [legendRows, List.getElem?_map, List.getElem?_enum, hb]
  · intro bots bots' mode mode' i b b' _ _
    rfl

/-- Witness for C7 with the demo page's first bot at position 0. -/
theorem legend_color_assignment_witness :
    (legendRows [⟨"bot1", "Momentum Alpha", 342.5, 280.1⟩] DisplayMode.live LINE_COLORS)[0]? =
      some (legendRow LINE_COLORS DisplayMode.live 0 ⟨"bot1", "Momentum Alpha", 342.5, 280.1⟩) ∧
    (legendRow LINE_COLORS DisplayMode.live 0 ⟨"bot1", "Momentum Alpha", 342.5, 280.1⟩).color =
      LINE_COLORS.getD (0 % 8) "" := by
  have h := legend_color_assignment.2.1 [⟨"bot1", "Momentum Alpha", 342.5, 280.1⟩]
    DisplayMode.live 0 ⟨"bot1", "Momentum Alpha", 342.5, 280.1⟩ rfl
  exact ⟨h.1, h.2.1⟩

-- C8.

/-- C8: an inactive tooltip query, or one whose payload is empty (no matching
series point), renders nothing — `ChartTooltipContent` returns `null`, not an
error. -/
theorem tooltip_empty_returns_none (active : Bool) (payload : List PayloadItem)
    (label : ℚ) (bots : List UIBot) (h : active = false ∨ payload = []) :
    chartTooltipContent active payload label bots = none := by
  rcases h with h | h <;> simp [chartTooltipContent, h]

/-- Witness for C8: both the inactive and the empty-payload cases. -/
theorem tooltip_empty_returns_none_witness :
    chartTooltipContent false [⟨"A", 1, "c"⟩] 0 [] = none ∧
    chartTooltipContent true [] 0 [] = none :=
  ⟨tooltip_empty_returns_none false [⟨"A", 1, "c"⟩] 0 [] (Or.inl rfl),
   tooltip_empty_returns_none true [] 0 [] (Or.inr rfl)⟩

-- C9.

/-- C9: `formatUsd` renders a nonnegative value as `"$"` followed by the value
with exactly two decimal digit characters, and a negative value as `"-$"`
followed by the absolute value with exactly two decimal digit characters; in
particular `formatUsd 342.5 = "$342.50"` and `formatUsd (-124.3) = "-$124.30"`. -/
theorem formatUsd_two_decimals (v : ℚ) :
    (0 ≤ v → formatUsd v = "$" ++ Nat.repr (cents v / 100) ++ "." ++
        Nat.repr (cents v / 10 % 10) ++ Nat.repr (cents v % 10) ∧
      cents v / 10 % 10 < 10 ∧ cents v % 10 < 10) ∧
    (v < 0 → formatUsd v = "-$" ++ Nat.repr (cents |v| / 100) ++ "." ++
        Nat.repr (cents |v| / 10 % 10) ++ Nat.repr (cents |v| % 10) ∧
      cents |v| / 10 % 10 < 10 ∧ cents |v| % 10 < 10) ∧
    formatUsd (342.5 : ℚ) = "$342.50" ∧ formatUsd (-124.3 : ℚ) = "-$124.30" := by
  refine ⟨fun h => ⟨?_, Nat.mod_lt _ (by norm_num), Nat.mod_lt _ (by norm_num)⟩,
    fun h => ⟨?_, Nat.mod_lt _ (by norm_num), Nat.mod_lt _ (by norm_num)⟩, ?_, ?_⟩
  · simp [formatUsd, toFixed2, h, String.append_assoc]
  · simp [formatUsd, toFixed2, not_le.mpr h, String.append_assoc]
  · have hc : cents (342.5 : ℚ) = 34250 := by
      have h : ⌊(342.5 : ℚ) * 100 + 1 / 2⌋ = 34250 := by norm_num [Int.floor_eq_iff]
      rw [cents, h]
      rfl
    rw [formatUsd, if_pos (by norm_num : (0 : ℚ) ≤ 342.5), toFixed2, hc]
    rfl
  · have hc : cents |(-124.3 : ℚ)| = 12430 := by
      have ha : |(-124.3 : ℚ)| = 124.3 := by norm_num
      have h : ⌊(124.3 : ℚ) * 100 + 1 / 2⌋ = 12430 := by norm_num [Int.floor_eq_iff]
      rw [cents, ha, h]
      rfl
    rw [formatUsd, if_neg (by norm_num : ¬(0 : ℚ) ≤ -124.3), toFixed2, hc]
    rfl

/-- Witness for C9 at a positive and a negative input. -/
theorem formatUsd_two_decimals_witness :
    formatUsd (342.5 : ℚ) = "$" ++ Nat.repr (cents (342.5 : ℚ) / 100) ++ "." ++
      Nat.repr (cents (342.5 : ℚ) / 10 % 10) ++ Nat.repr (cents (342.5 : ℚ) % 10) ∧
    formatUsd (-124.3 : ℚ) = "-$" ++ Nat.repr (cents |(-124.3 : ℚ)| / 100) ++ "." ++
      Nat.repr (cents |(-124.3 : ℚ)| / 10 % 10) ++ Nat.repr (cents |(-124.3 : ℚ)| % 10) := by
  have h1 := (formatUsd_two_decimals (342.5 : ℚ)).1 (by norm_num)
  have h2 := (formatUsd_two_decimals (-124.3 : ℚ)).2.1 (by norm_num)
  exact ⟨h1.1, h2.1⟩

end PnlChart
